import Mathlib

/-!
# Verification of the MicroPupper motion-control core

Shallow embedding, in Lean 4, of the parts of the firmware that the
specification's claims are about:

* the chunked-message reassembly protocol (`handle_incoming_data` /
  `chunk_reset` in `ble_servo.c`),
* the JSON command interpreter (`process_command`, `process_move_array`
  in `ble_servo.c`, together with the `on_servo_move` callback wired in
  `main.c`),
* the servo layer (`dog_servo_move_all`, `dog_goto_stance` in
  `dog_config.c`),
* the gyro stabilization controller and the push-reaction detector
  (`apply_gyro_stabilization`, `reaction_gyro_stabilize_enable`,
  `reaction_process_imu` in `reaction_config.c`).

Machine floats are modelled as rationals (`ℚ`), times (FreeRTOS ticks,
already converted to milliseconds by `pdTICKS_TO_MS`) as `ℕ`, and the C
`uint8_t`/`uint16_t` casts as explicit `% 2^w` reductions.  Side effects
(servo writes, BLE notifications, task delays, animation playback) are
modelled as explicit event traces.
-/

namespace MicroPup

/-! ## Responses sent over BLE (`ble_servo_send_response`)

The firmware emits a small fixed vocabulary of JSON response texts; we
model each distinct text by a constructor. -/

/-- One outbound BLE notification text. `ack n` is the text
`{"ack":n}`, `chunk_seq_err` is `{"err":"chunk_seq"}`, `overflow_err`
is `{"err":"overflow"}`, `ok1` is `{"ok":1}`, `ping1` is `{"p":1}`. -/
inductive Resp where
  | ack (n : Nat)
  | chunk_seq_err
  | overflow_err
  | ok1
  | ping1
deriving Repr, DecidableEq

/-! ## Chunk assembler (`ble_servo.c`)

State variables `s_chunk_buffer` / `s_chunk_len` / `s_chunk_expected` /
`s_chunk_received`.  The buffer content is modelled as the list of bytes
accumulated so far (`s_chunk_len` is its length); `expected` and
`received` hold the `uint8_t` counters. -/

/-- Constant `#define CHUNK_BUFFER_SIZE 2048` — capacity of `s_chunk_buffer`. -/
def CHUNK_BUFFER_SIZE : Nat := 2048

/-- The assembler's mutable state: accumulated payload bytes
(`s_chunk_buffer[0..s_chunk_len)`), `s_chunk_expected`,
`s_chunk_received`. -/
structure ChunkState where
  buf : List Char
  expected : Nat
  received : Nat
deriving Repr, DecidableEq

/-- Model of `chunk_reset()`: zero the length, the expected total and the last
received index. -/
def chunk_reset : ChunkState := ⟨[], 0, 0⟩

/-- A parsed chunked fragment `{"k":num,"t":total,"d":"payload"}` as the
assembler sees it: `k` and `t` carry the values of the `uint8_t` casts
`(uint8_t)k->valueint` / `(uint8_t)t->valueint`, `d` the payload
string. -/
structure Fragment where
  k : Nat
  t : Nat
  d : List Char
deriving Repr, DecidableEq

/-- Observable events of one `handle_incoming_data` call on a chunked
fragment: a BLE response, or handing a complete payload to
`process_command`. -/
inductive ChunkEvent where
  | send (r : Resp)
  | processCommand (payload : List Char)
deriving Repr, DecidableEq

/-- The state right after the `chunk_num == 1` branch of
`handle_incoming_data`: fragment 1 resets the buffer and records the
declared total; any other index leaves the state untouched. -/
def chunk_after_first_reset (s : ChunkState) (f : Fragment) : ChunkState :=
  if f.k = 1 then { chunk_reset with expected := f.t } else s

/-- The chunked branch of `handle_incoming_data` (`ble_servo.c`): the
index-1 reset, the sequence validation, the bounded append, the ack, and
the completion hand-off, in source order. -/
def handle_chunk (s : ChunkState) (f : Fragment) : ChunkState × List ChunkEvent :=
  -- First chunk - reset buffer, record the declared total
  let s1 := chunk_after_first_reset s f
  -- Validate sequence
  if f.k ≠ s1.received + 1 ∨ f.t ≠ s1.expected then
    (chunk_reset, [.send .chunk_seq_err])
  -- Append to buffer if there's room
  else if s1.buf.length + f.d.length < CHUNK_BUFFER_SIZE - 1 then
    let s2 : ChunkState := { s1 with buf := s1.buf ++ f.d, received := f.k }
    if s2.received = s2.expected then
      (chunk_reset, [.send (.ack f.k), .processCommand s2.buf])
    else
      (s2, [.send (.ack f.k)])
  else
    (chunk_reset, [.send .overflow_err])

/-- Feed a list of fragments through `handle_chunk`, accumulating the
event trace. -/
def run_chunks (s : ChunkState) (fs : List Fragment) : ChunkState × List ChunkEvent :=
  match fs with
  | [] => (s, [])
  | f :: rest =>
    let r := handle_chunk s f
    let r2 := run_chunks r.1 rest
    (r2.1, r.2 ++ r2.2)

/-- The fragments carrying the given payloads with consecutive indices
starting at `i + 1`, all declaring total `N`. -/
def mkFragsAux (N : Nat) : Nat → List (List Char) → List Fragment
  | _, [] => []
  | i, p :: rest => ⟨i + 1, N, p⟩ :: mkFragsAux N (i + 1) rest

/-- The fragments of one `N`-part message: indices `1..N`, declared
total `N`, payloads as given. -/
def mkFrags (N : Nat) (payloads : List (List Char)) : List Fragment :=
  mkFragsAux N 0 payloads

/-- Completion events of a trace. -/
def completions (evs : List ChunkEvent) : List (List Char) :=
  evs.filterMap (fun e => match e with
    | .processCommand p => some p
    | _ => none)

/-! ## JSON values (cJSON)

A parsed cJSON tree.  `process_command` receives already-parsed values;
unparsable text is dropped by the caller before reaching any of the
modelled logic. -/

/-- A cJSON value.  `num` carries the `valuedouble` field as a rational
(machine doubles are modelled exactly by their rational values). -/
inductive Json where
  | null
  | bool (b : Bool)
  | num (v : ℚ)
  | str (s : String)
  | arr (items : List Json)
  | obj (members : List (String × Json))

/-- Model of `cJSON_IsArray`. -/
def cJSON_IsArray : Json → Bool
  | .arr _ => true
  | _ => false

/-- Model of `cJSON_GetObjectItem`: the first member with the given name (`none`
models the NULL pointer returned when the key is absent or the value is
not an object). -/
def cJSON_GetObjectItem (j : Json) (key : String) : Option Json :=
  match j with
  | .obj members => (members.find? (fun m => m.1 == key)).map (fun m => m.2)
  | _ => none

/-- Model of `cJSON_GetArraySize` (0 for non-arrays). -/
def cJSON_GetArraySize : Json → Nat
  | .arr items => items.length
  | _ => 0

/-- Model of `cJSON_GetArrayItem`; out-of-range or non-array access yields
`null` (every use below is guarded by a size check, as in the source). -/
def cJSON_GetArrayItem (j : Json) (i : Nat) : Json :=
  match j with
  | .arr items => items.getD i .null
  | _ => .null

/-- The cJSON `valuedouble` field: the numeric value, 0 for
non-numbers. -/
def valuedouble : Json → ℚ
  | .num v => v
  | _ => 0

/-- Truncation of a rational toward zero, the C double-to-int
conversion. -/
def ratTrunc (q : ℚ) : Int := q.num.tdiv (q.den : Int)

/-- The cJSON `valueint` field (the numeric value converted to `int` by
truncation toward zero). -/
def valueint (j : Json) : Int := ratTrunc (valuedouble j)

/-- The C `(uint16_t)` cast: reduction modulo `2^16`. -/
def toUInt16Nat (i : Int) : Nat := (i.emod 65536).toNat

/-! ## Command interpreter (`process_command` in `ble_servo.c`, with the
callbacks registered by `main.c`)

Effects are the externally observable actions of processing one
command: a 4-leg motion handed to `dog_servo_move_all`, a `vTaskDelay`
blocking the command-processing task, a BLE response, or the stance
callback (`on_stance`: stop any running gait and go to stance). -/

/-- One observable action of the command-processing context. -/
inductive CmdEffect where
  | moveAll (fr fl br bl : ℚ) (speed : Nat)
  | taskDelay (ms : Nat)
  | send (r : Resp)
  | stance
deriving Repr, DecidableEq

/-- Model of `on_servo_move` (`main.c`), the registered `s_move_cb`: move all
four servos, then `vTaskDelay(delay_ms)` if `delay_ms > 0`. -/
def on_servo_move (fr fl br bl : ℚ) (speed delay_ms : Nat) : List CmdEffect :=
  [.moveAll fr fl br bl speed] ++ (if 0 < delay_ms then [.taskDelay delay_ms] else [])

/-- Model of `process_move_array` (`ble_servo.c`): validate the array, extract
the six fields (`delay_ms` defaults to 0 when the sixth element is
absent), invoke the move callback, then `vTaskDelay(delay_ms)` if
positive. -/
def process_move_array (arr : Json) : List CmdEffect :=
  if cJSON_IsArray arr = false ∨ cJSON_GetArraySize arr < 5 then []
  else
    let fr := valuedouble (cJSON_GetArrayItem arr 0)
    let fl := valuedouble (cJSON_GetArrayItem arr 1)
    let br := valuedouble (cJSON_GetArrayItem arr 2)
    let bl := valuedouble (cJSON_GetArrayItem arr 3)
    let speed := toUInt16Nat (valueint (cJSON_GetArrayItem arr 4))
    let delay_ms := if 5 < cJSON_GetArraySize arr
                    then toUInt16Nat (valueint (cJSON_GetArrayItem arr 5)) else 0
    on_servo_move fr fl br bl speed delay_ms
      ++ (if 0 < delay_ms then [.taskDelay delay_ms] else [])

/-- Whether an object-member lookup returned an array (the C test
`item && cJSON_IsArray(item)`). -/
def isSomeArray (o : Option Json) : Bool :=
  match o with
  | some j => cJSON_IsArray j
  | none => false

/-- Model of `process_command` (`ble_servo.c`) on a parsed value: dispatch on
the members `s` (single move), `m` (sequence), `p` (ping), `r`
(stance), in source order; anything else is logged and dropped. -/
def process_command (json : Json) : List CmdEffect :=
  if isSomeArray (cJSON_GetObjectItem json "s") then
    process_move_array ((cJSON_GetObjectItem json "s").getD .null)
  else if isSomeArray (cJSON_GetObjectItem json "m") then
    (match (cJSON_GetObjectItem json "m").getD .null with
     | .arr moves =>
       (moves.map (fun mv => if cJSON_IsArray mv then process_move_array mv else [])).flatten
     | _ => []) ++ [.send .ok1]
  else if (cJSON_GetObjectItem json "p").isSome then
    [.send .ping1]
  else if (cJSON_GetObjectItem json "r").isSome then
    [.stance, .send .ok1]
  else
    []

/-! ## Servo layer (`dog_config.c`)

`dog_config.h` is not part of the provided sources; the macros it
defines are modelled from the spec. -/

/-- Modelled from the spec: the four servo ids from the missing
`dog_config.h` (`DOG_SERVO_FR/FL/BR/BL`); one id per leg, in the range
1..4 pinged by `dog_check_servos`. -/
def DOG_SERVO_FR : Nat := 1

/-- Modelled from the spec: see `DOG_SERVO_FR`. -/
def DOG_SERVO_FL : Nat := 2

/-- Modelled from the spec: see `DOG_SERVO_FR`. -/
def DOG_SERVO_BR : Nat := 3

/-- Modelled from the spec: see `DOG_SERVO_FR`. -/
def DOG_SERVO_BL : Nat := 4

/-- Modelled from the spec: `DOG_IS_RIGHT_SIDE` from the missing
`dog_config.h` — right-side legs (front-right, back-right) require
angle reversal. -/
def DOG_IS_RIGHT_SIDE (id : Nat) : Bool := id = DOG_SERVO_FR ∨ id = DOG_SERVO_BR

/-- Modelled from the spec: `DOG_REVERSE_ANGLE` from the missing
`dog_config.h` — the reversal transform `360 − angle` (spec §4.1). -/
def DOG_REVERSE_ANGLE (angle : ℚ) : ℚ := 360 - angle

/-- The fields of `dog_config_t` that the verified functions read. -/
structure dog_config_t where
  stance_front : ℚ
  stance_back : ℚ
  swing_amplitude : ℚ
  default_speed : Nat
deriving Repr, DecidableEq

/-- One `sts_servo_set_angle(id, angle, speed)` bus command. -/
inductive ServoEffect where
  | setAngle (id : Nat) (angle : ℚ) (speed : Nat)
deriving Repr, DecidableEq

/-- Model of `apply_reversal` (`dog_config.c`). -/
def apply_reversal (servo_id : Nat) (angle : ℚ) : ℚ :=
  if DOG_IS_RIGHT_SIDE servo_id then DOG_REVERSE_ANGLE angle else angle

/-- Model of `dog_servo_move_all` (`dog_config.c`): reversal on the right-side
servos, then one `sts_servo_set_angle` per leg, FR, FL, BR, BL. -/
def dog_servo_move_all (fr fl br bl : ℚ) (speed : Nat) : List ServoEffect :=
  let actual_fr := apply_reversal DOG_SERVO_FR fr
  let actual_br := apply_reversal DOG_SERVO_BR br
  let actual_fl := fl
  let actual_bl := bl
  [ .setAngle DOG_SERVO_FR actual_fr speed,
    .setAngle DOG_SERVO_FL actual_fl speed,
    .setAngle DOG_SERVO_BR actual_br speed,
    .setAngle DOG_SERVO_BL actual_bl speed ]

/-- Model of `dog_goto_stance` (`dog_config.c`): move all legs to the configured
stance angles at the default speed. -/
def dog_goto_stance (cfg : dog_config_t) : List ServoEffect :=
  dog_servo_move_all cfg.stance_front cfg.stance_front
    cfg.stance_back cfg.stance_back cfg.default_speed

/-! ## Reaction system (`reaction_config.c` / `reaction_config.h`)

Constants from `reaction_config.h`; times are FreeRTOS tick counts
already converted to milliseconds (`pdTICKS_TO_MS`), modelled as `ℕ`.
The single non-algebraic operation, the C library `powf` used for the
speed curve, is passed in as a parameter. -/

/-- Constant `#define REACTION_DELTA_THRESHOLD 50.0f`. -/
def REACTION_DELTA_THRESHOLD : ℚ := 50

/-- Constant `#define REACTION_MIN_ACCEL 3.0f`. -/
def REACTION_MIN_ACCEL : ℚ := 3

/-- Constant `#define REACTION_COOLDOWN_MS 2000`. -/
def REACTION_COOLDOWN_MS : Nat := 2000

/-- Constant `#define REACTION_GYRO_MAX_CORRECTION 90.0f`. -/
def REACTION_GYRO_MAX_CORRECTION : ℚ := 90

/-- Constant `#define REACTION_GYRO_DEADZONE 0.5f`. -/
def REACTION_GYRO_DEADZONE : ℚ := 1/2

/-- Constant `#define REACTION_GYRO_GAIN 1.6f`. -/
def REACTION_GYRO_GAIN : ℚ := 8/5

/-- Constant `#define REACTION_GYRO_SMOOTHING 0.3f`. -/
def REACTION_GYRO_SMOOTHING : ℚ := 3/10

/-- Constant `#define REACTION_GYRO_UPDATE_INTERVAL_MS 50`. -/
def REACTION_GYRO_UPDATE_INTERVAL_MS : Nat := 50

/-- Constant `#define REACTION_GYRO_SPEED_MIN 150`. -/
def REACTION_GYRO_SPEED_MIN : ℚ := 150

/-- Constant `#define REACTION_GYRO_SPEED_MAX 2000`. -/
def REACTION_GYRO_SPEED_MAX : ℚ := 2000

/-- Constant `#define REACTION_GYRO_SPEED_THRESHOLD 10.0f`. -/
def REACTION_GYRO_SPEED_THRESHOLD : ℚ := 10

/-- Constant `#define REACTION_GYRO_SPEED_CURVE 1.2f`. -/
def REACTION_GYRO_SPEED_CURVE : ℚ := 6/5

/-- Modelled from the spec: `DOG_STANCE_FRONT` from the missing
`dog_config.h` — the front-leg stance angle, 90° (also stated by the
comments in `apply_gyro_stabilization`). -/
def DOG_STANCE_FRONT : ℚ := 90

/-- Modelled from the spec: `DOG_STANCE_BACK` from the missing
`dog_config.h` — the back-leg stance angle, 270°. -/
def DOG_STANCE_BACK : ℚ := 270

/-- The IMU fields the reaction system reads (`qmi8658a_data_t`). -/
structure qmi8658a_data_t where
  accel_x : ℚ
  gyro_y : ℚ
deriving Repr, DecidableEq

/-- The reaction module's mutable state: push-detection variables
(`last_reaction_time`, `prev_accel_x`, `has_prev_reading`) and gyro
stabilization variables (`gyro_stabilize_enabled`, `gyro_filtered_y`,
`accumulated_angle`, `prev_accumulated_angle`, `last_stabilize_time`).
Times in milliseconds. -/
structure ReactionState where
  last_reaction_time : Nat
  prev_accel_x : ℚ
  has_prev_reading : Bool
  gyro_stabilize_enabled : Bool
  gyro_filtered_y : ℚ
  accumulated_angle : ℚ
  prev_accumulated_angle : ℚ
  last_stabilize_time : Nat
deriving Repr, DecidableEq

/-- One observable action of the reaction control loop: a servo bus
command, the forward-push animation `walk_forward_play(cycles)`, or the
logged, not-yet-implemented backward-push case. -/
inductive ReactionEvent where
  | servo (e : ServoEffect)
  | walk_forward (cycles : Nat)
  | back_push_logged
deriving Repr, DecidableEq

/-- Model of `apply_gyro_stabilization` (`reaction_config.c`): deadzone,
low-pass filter, proportional gain, leaky integration with clamp, then
a four-leg move at a dynamically scaled speed.  `powf` abstracts the C
library power function used for the speed curve. -/
def apply_gyro_stabilization (powf : ℚ → ℚ → ℚ) (st : ReactionState)
    (data : qmi8658a_data_t) (now : Nat) : ReactionState × List ReactionEvent :=
  if !st.gyro_stabilize_enabled then (st, [])
  else if now - st.last_stabilize_time < REACTION_GYRO_UPDATE_INTERVAL_MS then (st, [])
  else
    -- Apply deadzone
    let gyro_y := if |data.gyro_y| < REACTION_GYRO_DEADZONE then 0 else data.gyro_y
    -- Low-pass filter for smoothing
    let filtered := REACTION_GYRO_SMOOTHING * gyro_y +
                    (1 - REACTION_GYRO_SMOOTHING) * st.gyro_filtered_y
    -- Calculate correction angle
    let correction := filtered * REACTION_GYRO_GAIN
    -- Integrate to accumulate angle (with decay to prevent drift)
    let acc0 := st.accumulated_angle * (98/100) + correction * (2/100)
    -- Clamp correction to maximum allowed
    let acc := if acc0 > REACTION_GYRO_MAX_CORRECTION then REACTION_GYRO_MAX_CORRECTION
               else if acc0 < -REACTION_GYRO_MAX_CORRECTION then -REACTION_GYRO_MAX_CORRECTION
               else acc0
    let angle_fl := DOG_STANCE_FRONT + acc
    let angle_fr := DOG_STANCE_FRONT + acc
    let angle_bl := DOG_STANCE_BACK + acc
    let angle_br := DOG_STANCE_BACK + acc
    -- Dynamic speed from how much the angle is changing
    let angle_delta := |acc - st.prev_accumulated_angle|
    let ratio0 := angle_delta / REACTION_GYRO_SPEED_THRESHOLD
    let ratio1 := if ratio0 > 1 then 1 else ratio0
    let speed_ratio := powf ratio1 REACTION_GYRO_SPEED_CURVE
    let dynamic_speed := toUInt16Nat (ratTrunc (REACTION_GYRO_SPEED_MIN +
                           speed_ratio * (REACTION_GYRO_SPEED_MAX - REACTION_GYRO_SPEED_MIN)))
    ({ st with gyro_filtered_y := filtered,
               accumulated_angle := acc,
               prev_accumulated_angle := acc,
               last_stabilize_time := now },
     (dog_servo_move_all angle_fr angle_fl angle_br angle_bl dynamic_speed).map .servo)

/-- Model of `reaction_gyro_stabilize_enable` (`reaction_config.c`): enabling
from disabled resets the filter/integrator state and the timestamp;
disabling from enabled returns the legs to stance; in every case the
flag is set to the argument.  `cfg` is the `dog_config` read by
`dog_goto_stance`. -/
def reaction_gyro_stabilize_enable (cfg : dog_config_t) (st : ReactionState)
    (enable : Bool) (now : Nat) : ReactionState × List ReactionEvent :=
  if enable && !st.gyro_stabilize_enabled then
    ({ st with gyro_filtered_y := 0, accumulated_angle := 0, prev_accumulated_angle := 0,
               last_stabilize_time := now, gyro_stabilize_enabled := enable }, [])
  else if !enable && st.gyro_stabilize_enabled then
    ({ st with gyro_stabilize_enabled := enable }, (dog_goto_stance cfg).map .servo)
  else
    ({ st with gyro_stabilize_enabled := enable }, [])

/-- Model of `reaction_process_imu` (`reaction_config.c`): gyro stabilization
first, then delta-based push detection — seed the previous sample on
the first reading, compute the delta, store the current sample as
previous, check the cooldown, then the forward / backward push
conditions. -/
def reaction_process_imu (powf : ℚ → ℚ → ℚ) (st : ReactionState)
    (data : qmi8658a_data_t) (now : Nat) : ReactionState × List ReactionEvent :=
  let r := apply_gyro_stabilization powf st data now
  let st1 := r.1
  let current_accel_x := data.accel_x
  -- Need a previous reading to calculate delta
  if !st1.has_prev_reading then
    ({ st1 with prev_accel_x := current_accel_x, has_prev_reading := true }, r.2)
  else
    -- Calculate delta (change from previous reading)
    let delta := current_accel_x - st1.prev_accel_x
    -- Store current as previous for next iteration
    let st2 := { st1 with prev_accel_x := current_accel_x }
    -- Check cooldown
    if now - st2.last_reaction_time < REACTION_COOLDOWN_MS then
      (st2, r.2)
    else if delta ≥ REACTION_DELTA_THRESHOLD ∧ current_accel_x ≥ REACTION_MIN_ACCEL then
      ({ st2 with last_reaction_time := now }, r.2 ++ [.walk_forward 3])
    else if delta ≤ -REACTION_DELTA_THRESHOLD ∧ current_accel_x ≤ -REACTION_MIN_ACCEL then
      ({ st2 with last_reaction_time := now }, r.2 ++ [.back_push_logged])
    else
      (st2, r.2)

/-- Feed a list of timestamped IMU samples through
`reaction_process_imu`, accumulating the event trace. -/
def run_imu (powf : ℚ → ℚ → ℚ) (st : ReactionState)
    (inputs : List (qmi8658a_data_t × Nat)) : ReactionState × List ReactionEvent :=
  match inputs with
  | [] => (st, [])
  | i :: rest =>
    let r := reaction_process_imu powf st i.1 i.2
    let r2 := run_imu powf r.1 rest
    (r2.1, r.2 ++ r2.2)

/-! ## Helper lemmas about the chunk assembler -/

/-- Every branch of `handle_chunk` leaves the accumulated length under
`CHUNK_BUFFER_SIZE - 1`: the error branches reset it to zero and the
append branch is guarded by the room check. -/
theorem handle_chunk_buf_lt (s : ChunkState) (f : Fragment) :
    ((handle_chunk s f).1).buf.length < CHUNK_BUFFER_SIZE - 1 := by
  simp only [handle_chunk]
  split
  · simp [chunk_reset, CHUNK_BUFFER_SIZE]
  · split
    · split
      · simp [chunk_reset, CHUNK_BUFFER_SIZE]
      · next hroom _ =>
        simpa using hroom
    · simp [chunk_reset, CHUNK_BUFFER_SIZE]

/-- The accumulated length stays at most `CHUNK_BUFFER_SIZE` under any
fragment sequence, from any state already within capacity. -/
theorem run_chunks_buf_le (fs : List Fragment) :
    ∀ s : ChunkState, s.buf.length ≤ CHUNK_BUFFER_SIZE →
    ((run_chunks s fs).1).buf.length ≤ CHUNK_BUFFER_SIZE := by
  induction fs with
  | nil => intro s hs; exact hs
  | cons f rest ih =>
    intro s _
    have h1 := handle_chunk_buf_lt s f
    have h2 : ((handle_chunk s f).1).buf.length ≤ CHUNK_BUFFER_SIZE := by
      unfold CHUNK_BUFFER_SIZE at h1 ⊢; omega
    simpa [run_chunks] using ih (handle_chunk s f).1 h2

/-- Accepting a non-first fragment in sequence with room available:
payload appended, ack sent, completion exactly when the index reaches
the expected total. -/
theorem handle_chunk_accept (s : ChunkState) (f : Fragment)
    (hk1 : f.k ≠ 1) (hk : f.k = s.received + 1) (ht : f.t = s.expected)
    (hroom : s.buf.length + f.d.length < CHUNK_BUFFER_SIZE - 1) :
    handle_chunk s f =
      if f.k = s.expected then
        (chunk_reset, [.send (.ack f.k), .processCommand (s.buf ++ f.d)])
      else
        (⟨s.buf ++ f.d, s.expected, f.k⟩, [.send (.ack f.k)]) := by
  unfold handle_chunk chunk_after_first_reset
  rw [if_neg hk1, if_neg (by tauto), if_pos (by simpa using hroom)]

/-- Processing fragment 1: the buffer is wiped, the total recorded, and
the payload becomes the whole accumulated content; an immediate
completion happens exactly when the declared total is 1. -/
theorem handle_chunk_first (s : ChunkState) (f : Fragment)
    (hk : f.k = 1) (hroom : f.d.length < CHUNK_BUFFER_SIZE - 1) :
    handle_chunk s f =
      if 1 = f.t then
        (chunk_reset, [.send (.ack 1), .processCommand f.d])
      else
        (⟨f.d, f.t, 1⟩, [.send (.ack 1)]) := by
  unfold handle_chunk chunk_after_first_reset
  rw [if_pos hk]
  rw [if_neg (by simp [chunk_reset, hk]), if_pos (by simpa [chunk_reset] using hroom)]
  simp [chunk_reset, hk]

/-- Running the assembler over in-order fragments `i+1 .. N` from a
mid-assembly state: every fragment is acked and appended, the last one
triggers exactly one completion carrying the accumulated content, and
the state ends fully reset. -/
theorem run_chunks_mid (ps : List (List Char)) :
    ∀ (i : Nat) (acc : List Char) (N : Nat), 1 ≤ i → i + ps.length = N → ps ≠ [] →
    acc.length + ps.flatten.length < CHUNK_BUFFER_SIZE - 1 →
    (run_chunks ⟨acc, N, i⟩ (mkFragsAux N i ps)).1 = chunk_reset ∧
    completions (run_chunks ⟨acc, N, i⟩ (mkFragsAux N i ps)).2 = [acc ++ ps.flatten] := by
  induction ps with
  | nil => intro i acc N _ _ hne _; exact absurd rfl hne
  | cons p rest ih =>
    intro i acc N hi hN _ hcap
    have hcap' : acc.length + (p.length + rest.flatten.length) < CHUNK_BUFFER_SIZE - 1 := by
      simpa using hcap
    have hroom : acc.length + p.length < CHUNK_BUFFER_SIZE - 1 := by omega
    have hk1 : (⟨i + 1, N, p⟩ : Fragment).k ≠ 1 := by simp; omega
    have hstep := handle_chunk_accept ⟨acc, N, i⟩ ⟨i + 1, N, p⟩ hk1 rfl rfl (by simpa using hroom)
    cases rest with
    | nil =>
      have hiN : i + 1 = N := by simpa using hN
      rw [if_pos (by simpa using hiN)] at hstep
      refine ⟨?_, ?_⟩
      · simp [mkFragsAux, run_chunks, hstep]
      · simp [mkFragsAux, run_chunks, hstep, completions]
    | cons r rs =>
      have hlt : i + 1 ≠ N := by simp at hN; omega
      rw [if_neg (by simpa using hlt)] at hstep
      have hcap2 : (acc ++ p).length + (r :: rs).flatten.length < CHUNK_BUFFER_SIZE - 1 := by
        simp only [List.flatten_cons, List.length_append] at hcap' ⊢
        omega
      have hmid := ih (i + 1) (acc ++ p) N (by omega) (by simp at hN ⊢; omega) (by simp) hcap2
      refine ⟨?_, ?_⟩
      · simpa [mkFragsAux, run_chunks, hstep] using hmid.1
      · have h2 := hmid.2
        simp only [mkFragsAux, run_chunks, hstep, completions, List.filterMap_append] at h2 ⊢
        simpa using h2

/-! ## Theorems for the claims about the chunk assembler -/

/-- C1: a chunked fragment is accepted only if, after the documented
index-1 reset, its index equals the last received index plus 1 and its
declared total equals the recorded total; any fragment violating either
condition fully resets the assembly buffer (length, expected total and
last received index all zeroed), emits the chunk-sequence error
response, and its payload is discarded. -/
theorem chunk_seq_violation_resets (s : ChunkState) (f : Fragment)
    (h : ¬ (f.k = (chunk_after_first_reset s f).received + 1 ∧
            f.t = (chunk_after_first_reset s f).expected)) :
    handle_chunk s f = (chunk_reset, [.send .chunk_seq_err]) := by
  unfold handle_chunk
  rw [if_pos (by tauto)]

/-- Witness for `chunk_seq_violation_resets`: fragment 2 arriving with
nothing received. -/
theorem chunk_seq_violation_resets_witness :
    ¬ ((⟨2, 1, ['a']⟩ : Fragment).k =
         (chunk_after_first_reset chunk_reset ⟨2, 1, ['a']⟩).received + 1 ∧
       (⟨2, 1, ['a']⟩ : Fragment).t =
         (chunk_after_first_reset chunk_reset ⟨2, 1, ['a']⟩).expected) ∧
    handle_chunk chunk_reset ⟨2, 1, ['a']⟩ = (chunk_reset, [.send .chunk_seq_err]) :=
  ⟨by decide, chunk_seq_violation_resets chunk_reset ⟨2, 1, ['a']⟩ (by decide)⟩

/-- C2: feeding fragments `1..N` (declared total `N`, cumulative
payload length within the append bound) in order, from any prior
assembler state, forwards exactly one message to the command processor
— the exact concatenation of the `N` payloads in order — and leaves the
assembly buffer reset. -/
theorem chunks_in_order_deliver_concat (s₀ : ChunkState) (N : Nat)
    (payloads : List (List Char))
    (hlen : payloads.length = N) (hpos : 0 < N)
    (hcap : payloads.flatten.length < CHUNK_BUFFER_SIZE - 1) :
    (run_chunks s₀ (mkFrags N payloads)).1 = chunk_reset ∧
    completions (run_chunks s₀ (mkFrags N payloads)).2 = [payloads.flatten] := by
  cases payloads with
  | nil => subst hlen; exact absurd hpos (by simp)
  | cons p rest =>
    have hcap' : p.length + rest.flatten.length < CHUNK_BUFFER_SIZE - 1 := by
      simpa using hcap
    have hstep := handle_chunk_first s₀ ⟨1, N, p⟩ rfl (by simp; omega)
    cases rest with
    | nil =>
      have hN : N = 1 := by simpa using hlen.symm
      rw [if_pos (by simp [hN])] at hstep
      refine ⟨?_, ?_⟩
      · simp [mkFrags, mkFragsAux, run_chunks, hstep]
      · simp [mkFrags, mkFragsAux, run_chunks, hstep, completions]
    | cons r rs =>
      have hN2 : 1 ≠ N := by simp at hlen; omega
      rw [if_neg (by simpa using hN2)] at hstep
      have hmid := run_chunks_mid (r :: rs) 1 p N (le_refl 1)
        (by simp at hlen ⊢; omega) (by simp)
        (by simp only [List.flatten_cons, List.length_append] at hcap' ⊢; omega)
      refine ⟨?_, ?_⟩
      · simpa [mkFrags, mkFragsAux, run_chunks, hstep] using hmid.1
      · have h2 := hmid.2
        simp only [mkFrags, mkFragsAux, run_chunks, hstep, completions,
          List.filterMap_append] at h2 ⊢
        simpa using h2

/-- Witness for `chunks_in_order_deliver_concat`: two fragments
carrying `ab` and `cd` reassemble to `abcd`. -/
theorem chunks_in_order_deliver_concat_witness :
    (run_chunks chunk_reset (mkFrags 2 [['a', 'b'], ['c', 'd']])).1 = chunk_reset ∧
    completions (run_chunks chunk_reset (mkFrags 2 [['a', 'b'], ['c', 'd']])).2 =
      [['a', 'b', 'c', 'd']] :=
  chunks_in_order_deliver_concat chunk_reset 2 [['a', 'b'], ['c', 'd']]
    (by decide) (by decide) (by decide)

/-- C3: (1) after any sequence of calls from the reset state the
accumulated length never exceeds the fixed capacity
`CHUNK_BUFFER_SIZE`; (2) a fragment that passes the sequence check but
whose payload would push the accumulated length past the capacity is
not appended at all: the buffer is fully reset, the overflow error is
emitted, and no ack is sent for it. -/
theorem assembly_buffer_bounded :
    (∀ fs : List Fragment,
       ((run_chunks chunk_reset fs).1).buf.length ≤ CHUNK_BUFFER_SIZE) ∧
    (∀ (s : ChunkState) (f : Fragment),
       f.k = (chunk_after_first_reset s f).received + 1 →
       f.t = (chunk_after_first_reset s f).expected →
       CHUNK_BUFFER_SIZE < (chunk_after_first_reset s f).buf.length + f.d.length →
       handle_chunk s f = (chunk_reset, [.send .overflow_err])) := by
  constructor
  · intro fs
    exact run_chunks_buf_le fs chunk_reset (by simp [chunk_reset])
  · intro s f hk ht hov
    unfold handle_chunk
    rw [if_neg (by tauto), if_neg (by unfold CHUNK_BUFFER_SIZE at hov ⊢; omega)]

/-- Witness for `assembly_buffer_bounded`: a one-fragment run for the
capacity invariant, and a 2049-byte first fragment for the overflow
branch. -/
theorem assembly_buffer_bounded_witness :
    ((run_chunks chunk_reset [⟨1, 2, ['a']⟩]).1).buf.length ≤ CHUNK_BUFFER_SIZE ∧
    handle_chunk chunk_reset ⟨1, 1, List.replicate 2049 'a'⟩ =
      (chunk_reset, [.send .overflow_err]) :=
  ⟨assembly_buffer_bounded.1 [⟨1, 2, ['a']⟩],
   assembly_buffer_bounded.2 chunk_reset ⟨1, 1, List.replicate 2049 'a'⟩
     rfl rfl
     (by norm_num [chunk_after_first_reset, chunk_reset, CHUNK_BUFFER_SIZE])⟩

/-! ## Helper lemmas about the command interpreter -/

/-- A move array with fewer than five elements (this covers non-arrays,
whose size is 0) produces no effect at all. -/
theorem process_move_array_short (mv : Json) (h : cJSON_GetArraySize mv < 5) :
    process_move_array mv = [] := by
  unfold process_move_array
  rw [if_pos (Or.inr h)]

/-- Processing a move array never sends a response. -/
theorem process_move_array_no_send (mv : Json) (r : Resp) :
    CmdEffect.send r ∉ process_move_array mv := by
  unfold process_move_array on_servo_move
  split
  · simp
  · by_cases hd : 0 < (if 5 < cJSON_GetArraySize mv then
        toUInt16Nat (valueint (cJSON_GetArrayItem mv 5)) else 0)
    · simp [hd]
    · simp [hd]

/-- The per-element dispatch of the sequence loop equals mapping
`process_move_array` over the well-formed inner arrays. -/
theorem sequence_loop_eq_filter (moves : List Json) :
    (moves.map (fun mv => if cJSON_IsArray mv then process_move_array mv else [])).flatten =
    ((moves.filter (fun mv => cJSON_IsArray mv && 5 ≤ cJSON_GetArraySize mv)).map
      process_move_array).flatten := by
  induction moves with
  | nil => rfl
  | cons mv rest ih =>
    by_cases ha : cJSON_IsArray mv = true
    · by_cases h5 : 5 ≤ cJSON_GetArraySize mv
      · simp [ha, h5, List.filter_cons, ih]
      · have := process_move_array_short mv (by omega)
        simp [ha, h5, List.filter_cons, ih, this]
    · simp [ha, List.filter_cons, ih]

/-! ## Theorems for the claims about the command interpreter -/

/-- C8: ping and stance dispatch on key presence alone.  For a parsed
object whose `s` and `m` members are absent or not arrays: any member
named `p`, whatever its value, yields exactly the ping reply; with no
`p` member, any member named `r`, whatever its value, triggers the
return-to-stance path followed by the ok reply. -/
theorem ping_stance_key_presence (json : Json)
    (hs : isSomeArray (cJSON_GetObjectItem json "s") = false)
    (hm : isSomeArray (cJSON_GetObjectItem json "m") = false) :
    ((cJSON_GetObjectItem json "p").isSome = true →
      process_command json = [.send .ping1]) ∧
    ((cJSON_GetObjectItem json "p").isSome = false →
     (cJSON_GetObjectItem json "r").isSome = true →
      process_command json = [.stance, .send .ok1]) := by
  constructor
  · intro hp
    simp [process_command, hs, hm, hp]
  · intro hp hr
    simp [process_command, hs, hm, hp, hr]

/-- Witness for `ping_stance_key_presence`: a `p` member with a string
value pings; an `r` member with value 0 goes to stance. -/
theorem ping_stance_key_presence_witness :
    process_command (Json.obj [("p", Json.str "x")]) = [.send .ping1] ∧
    process_command (Json.obj [("r", Json.num 0)]) = [.stance, .send .ok1] :=
  ⟨(ping_stance_key_presence (Json.obj [("p", Json.str "x")]) rfl rfl).1 rfl,
   (ping_stance_key_presence (Json.obj [("r", Json.num 0)]) rfl rfl).2 rfl rfl⟩

/-- C9: for a sequence command, inner elements that are not arrays and
inner arrays with fewer than five elements are silently skipped; the
remaining moves execute in order, and exactly one ok reply is sent
afterwards — also when the list is empty or every element is
malformed. -/
theorem sequence_skips_malformed_one_ok (json : Json) (moves : List Json)
    (hs : isSomeArray (cJSON_GetObjectItem json "s") = false)
    (hm : cJSON_GetObjectItem json "m" = some (.arr moves)) :
    process_command json =
      ((moves.filter (fun mv => cJSON_IsArray mv && 5 ≤ cJSON_GetArraySize mv)).map
        process_move_array).flatten ++ [.send .ok1] ∧
    (process_command json).count (.send .ok1) = 1 := by
  have hm' : isSomeArray (cJSON_GetObjectItem json "m") = true := by
    rw [hm]; rfl
  have hget : (cJSON_GetObjectItem json "m").getD .null = Json.arr moves := by
    rw [hm]; rfl
  have hpc : process_command json =
      (moves.map (fun mv => if cJSON_IsArray mv then process_move_array mv else [])).flatten
        ++ [.send .ok1] := by
    simp [process_command, hs, hm', hget]
  constructor
  · rw [hpc, sequence_loop_eq_filter]
  · rw [hpc]
    have hnot : CmdEffect.send Resp.ok1 ∉
        (moves.map (fun mv => if cJSON_IsArray mv then process_move_array mv else [])).flatten := by
      intro hmem
      rcases List.mem_flatten.mp hmem with ⟨l, hl, hx⟩
      rcases List.mem_map.mp hl with ⟨mv, _, rfl⟩
      by_cases ha : cJSON_IsArray mv = true
      · rw [if_pos ha] at hx
        exact process_move_array_no_send mv Resp.ok1 hx
      · rw [if_neg ha] at hx
        simp at hx
    rw [List.count_append, List.count_eq_zero.mpr hnot]
    rfl

/-- Witness for `sequence_skips_malformed_one_ok`: a sequence with a
valid move, a short array and a non-array in it. -/
theorem sequence_skips_malformed_one_ok_witness :
    process_command (Json.obj [("m", Json.arr
        [Json.arr [.num 1, .num 2, .num 3, .num 4, .num 5],
         Json.arr [.num 1],
         Json.num 7])]) =
      ((([Json.arr [.num 1, .num 2, .num 3, .num 4, .num 5],
          Json.arr [.num 1],
          Json.num 7].filter
            (fun mv => cJSON_IsArray mv && 5 ≤ cJSON_GetArraySize mv)).map
        process_move_array).flatten ++ [.send .ok1]) ∧
    (process_command (Json.obj [("m", Json.arr
        [Json.arr [.num 1, .num 2, .num 3, .num 4, .num 5],
         Json.arr [.num 1],
         Json.num 7])])).count (.send .ok1) = 1 :=
  sequence_skips_malformed_one_ok
    (Json.obj [("m", Json.arr
        [Json.arr [.num 1, .num 2, .num 3, .num 4, .num 5],
         Json.arr [.num 1],
         Json.num 7])])
    [Json.arr [.num 1, .num 2, .num 3, .num 4, .num 5],
     Json.arr [.num 1],
     Json.num 7]
    rfl rfl

/-- Total milliseconds the command-processing context spends blocked in
`vTaskDelay` over an effect trace. -/
def delay_total (es : List CmdEffect) : Nat :=
  (es.map (fun e => match e with
    | .taskDelay d => d
    | _ => 0)).sum

/-- Counterexample to C4 as stated: the single move
`s = [90, 90, 270, 270, 1000, 100]` blocks the command-processing
context for 200 ms, not 100 ms — `vTaskDelay(delay_ms)` runs once
inside the registered move callback (`on_servo_move`, `main.c`) and
once more in `process_move_array` (`ble_servo.c`). -/
theorem single_move_delay_counterexample :
    delay_total (process_command (Json.obj [("s", Json.arr
      [.num 90, .num 90, .num 270, .num 270, .num 1000, .num 100])])) = 200 ∧
    (200 : Nat) ≠ 100 := by
  constructor
  · decide
  · decide

/-- C4 amended: a single-move command with array length at least 5
builds the move with `delay_ms` defaulting to 0 when the sixth element
is absent, forwards exactly one 4-leg motion, and when `delay_ms > 0`
blocks the command-processing context for `2 × delay_ms` (the delay is
applied once by the move callback and once more after it) before the
next command is accepted. -/
theorem single_move_builds_and_delays_twice (json : Json) (items : List Json)
    (hs : cJSON_GetObjectItem json "s" = some (.arr items))
    (h5 : 5 ≤ cJSON_GetArraySize (Json.arr items)) :
    process_command json =
      let d := if 5 < cJSON_GetArraySize (Json.arr items)
               then toUInt16Nat (valueint (cJSON_GetArrayItem (Json.arr items) 5)) else 0
      [.moveAll (valuedouble (cJSON_GetArrayItem (Json.arr items) 0))
                (valuedouble (cJSON_GetArrayItem (Json.arr items) 1))
                (valuedouble (cJSON_GetArrayItem (Json.arr items) 2))
                (valuedouble (cJSON_GetArrayItem (Json.arr items) 3))
                (toUInt16Nat (valueint (cJSON_GetArrayItem (Json.arr items) 4)))] ++
      (if 0 < d then [.taskDelay d, .taskDelay d] else []) := by
  have hs' : isSomeArray (cJSON_GetObjectItem json "s") = true := by rw [hs]; rfl
  have hget : (cJSON_GetObjectItem json "s").getD .null = Json.arr items := by rw [hs]; rfl
  have hguard : ¬(cJSON_IsArray (Json.arr items) = false ∨
      cJSON_GetArraySize (Json.arr items) < 5) := by
    simp [cJSON_IsArray]; omega
  simp only [process_command, hs', if_true, hget]
  unfold process_move_array on_servo_move
  rw [if_neg hguard]
  by_cases hd : 0 < (if 5 < cJSON_GetArraySize (Json.arr items)
      then toUInt16Nat (valueint (cJSON_GetArrayItem (Json.arr items) 5)) else 0)
  · simp [hd]
  · simp [hd]

/-- Witness for `single_move_builds_and_delays_twice`: the move
`[90, 90, 270, 270, 1000, 100]` yields one 4-leg motion and two 100 ms
delays. -/
theorem single_move_builds_and_delays_twice_witness :
    process_command (Json.obj [("s", Json.arr
      [.num 90, .num 90, .num 270, .num 270, .num 1000, .num 100])]) =
      [.moveAll 90 90 270 270 1000, .taskDelay 100, .taskDelay 100] := by
  rw [single_move_builds_and_delays_twice
    (Json.obj [("s", Json.arr [.num 90, .num 90, .num 270, .num 270, .num 1000, .num 100])])
    [.num 90, .num 90, .num 270, .num 270, .num 1000, .num 100] rfl (by decide)]
  decide

/-! ## Helper lemmas about the reaction system -/

/-- Gyro stabilization never touches the push-detection fields. -/
theorem apply_gyro_push_fields (powf : ℚ → ℚ → ℚ) (st : ReactionState)
    (data : qmi8658a_data_t) (now : Nat) :
    (apply_gyro_stabilization powf st data now).1.has_prev_reading = st.has_prev_reading ∧
    (apply_gyro_stabilization powf st data now).1.prev_accel_x = st.prev_accel_x ∧
    (apply_gyro_stabilization powf st data now).1.last_reaction_time = st.last_reaction_time := by
  unfold apply_gyro_stabilization
  split
  · exact ⟨rfl, rfl, rfl⟩
  · split
    · exact ⟨rfl, rfl, rfl⟩
    · exact ⟨rfl, rfl, rfl⟩

/-- The correction bound is nonnegative. -/
theorem max_correction_nonneg : (0 : ℚ) ≤ REACTION_GYRO_MAX_CORRECTION := by
  norm_num [REACTION_GYRO_MAX_CORRECTION]

/-- The clamp used on the accumulated angle always lands in
`[-M, M]`. -/
theorem clamp_abs_le (x M : ℚ) (hM : 0 ≤ M) :
    |if x > M then M else if x < -M then -M else x| ≤ M := by
  split
  · rw [abs_of_nonneg hM]
  · split
    · rw [abs_neg, abs_of_nonneg hM]
    · next h1 h2 =>
      rw [abs_le]
      exact ⟨not_lt.mp h2, not_lt.mp h1⟩

/-- One stabilization call keeps the accumulated angle within the
correction bound: a non-firing call leaves it unchanged and a firing
call clamps it. -/
theorem apply_gyro_accum_bounded (powf : ℚ → ℚ → ℚ) (st : ReactionState)
    (data : qmi8658a_data_t) (now : Nat)
    (h : |st.accumulated_angle| ≤ REACTION_GYRO_MAX_CORRECTION) :
    |(apply_gyro_stabilization powf st data now).1.accumulated_angle| ≤
      REACTION_GYRO_MAX_CORRECTION := by
  simp only [apply_gyro_stabilization]
  split
  · exact h
  · split
    · exact h
    · exact clamp_abs_le _ _ max_correction_nonneg

/-- Push detection never modifies the accumulated correction angle. -/
theorem reaction_process_imu_accum (powf : ℚ → ℚ → ℚ) (st : ReactionState)
    (data : qmi8658a_data_t) (now : Nat) :
    (reaction_process_imu powf st data now).1.accumulated_angle =
      (apply_gyro_stabilization powf st data now).1.accumulated_angle := by
  simp only [reaction_process_imu]
  split
  · rfl
  · split
    · rfl
    · split
      · rfl
      · split
        · rfl
        · rfl

/-- The accumulated correction bound is preserved over any list of IMU
samples. -/
theorem run_imu_accum_bounded (inputs : List (qmi8658a_data_t × Nat)) :
    ∀ (powf : ℚ → ℚ → ℚ) (st : ReactionState),
    |st.accumulated_angle| ≤ REACTION_GYRO_MAX_CORRECTION →
    |(run_imu powf st inputs).1.accumulated_angle| ≤ REACTION_GYRO_MAX_CORRECTION := by
  induction inputs with
  | nil => intro powf st h; exact h
  | cons i rest ih =>
    intro powf st h
    have hstep : |(reaction_process_imu powf st i.1 i.2).1.accumulated_angle| ≤
        REACTION_GYRO_MAX_CORRECTION := by
      rw [reaction_process_imu_accum]
      exact apply_gyro_accum_bounded powf st i.1 i.2 h
    simpa [run_imu] using ih powf _ hstep

/-! ## Theorems for the claims about the reaction system -/

/-- A dog configuration for concrete test inputs (90°/270° stance,
25° swing, speed 1000). -/
def testDogConfig : dog_config_t := ⟨90, 270, 25, 1000⟩

/-- A reaction state with gyro stabilization currently disabled and all
numeric state zeroed. -/
def disabledReactionState : ReactionState := ⟨0, 0, false, false, 0, 0, 0, 0⟩

/-- A reaction state with gyro stabilization currently enabled and all
numeric state zeroed. -/
def enabledReactionState : ReactionState := ⟨0, 0, false, true, 0, 0, 0, 0⟩

/-- Counterexample to C5 as stated: calling the disable entry point
while stabilization is already disabled commands no servo at all — the
`else if` in `reaction_gyro_stabilize_enable` only reaches
`dog_goto_stance` on an enabled→disabled transition, so "regardless of
the controller's state" fails. -/
theorem stabilize_disable_noop_counterexample :
    (reaction_gyro_stabilize_enable testDogConfig disabledReactionState false 0).2 = [] ∧
    disabledReactionState.gyro_stabilize_enabled = false := by
  exact ⟨rfl, rfl⟩

/-- C5 amended: `setEnabled(false)` immediately commands all four legs
to their stance angles whenever the controller is currently enabled;
a disable call issued while already disabled performs no leg
command. -/
theorem stabilize_disable_goto_stance (cfg : dog_config_t) (st : ReactionState)
    (now : Nat) (h : st.gyro_stabilize_enabled = true) :
    (reaction_gyro_stabilize_enable cfg st false now).2 =
      [.servo (.setAngle DOG_SERVO_FR (DOG_REVERSE_ANGLE cfg.stance_front) cfg.default_speed),
       .servo (.setAngle DOG_SERVO_FL cfg.stance_front cfg.default_speed),
       .servo (.setAngle DOG_SERVO_BR (DOG_REVERSE_ANGLE cfg.stance_back) cfg.default_speed),
       .servo (.setAngle DOG_SERVO_BL cfg.stance_back cfg.default_speed)] ∧
    (reaction_gyro_stabilize_enable cfg st false now).1.gyro_stabilize_enabled = false := by
  simp [reaction_gyro_stabilize_enable, h, dog_goto_stance, dog_servo_move_all,
    apply_reversal, DOG_IS_RIGHT_SIDE, DOG_SERVO_FR, DOG_SERVO_FL, DOG_SERVO_BR,
    DOG_SERVO_BL]

/-- Witness for `stabilize_disable_goto_stance`: disabling from the
enabled test state commands the four stance angles (right side
reversed). -/
theorem stabilize_disable_goto_stance_witness :
    (reaction_gyro_stabilize_enable testDogConfig enabledReactionState false 5).2 =
      [.servo (.setAngle DOG_SERVO_FR 270 1000),
       .servo (.setAngle DOG_SERVO_FL 90 1000),
       .servo (.setAngle DOG_SERVO_BR 90 1000),
       .servo (.setAngle DOG_SERVO_BL 270 1000)] ∧
    (reaction_gyro_stabilize_enable testDogConfig enabledReactionState false 5).1.gyro_stabilize_enabled
      = false := by
  have h := stabilize_disable_goto_stance testDogConfig enabledReactionState 5 rfl
  refine ⟨?_, h.2⟩
  rw [h.1]
  norm_num [testDogConfig, DOG_REVERSE_ANGLE]

/-- C6: (1) over any number of `reaction_process_imu` ticks with
arbitrary IMU input (including sustained extremes), the accumulated
correction angle stays within
`[-REACTION_GYRO_MAX_CORRECTION, +REACTION_GYRO_MAX_CORRECTION]`;
(2) every firing stabilization update clamps the accumulated angle to
these bounds and commands the legs at stance plus exactly that clamped
value. -/
theorem accumulated_correction_always_bounded :
    (∀ (powf : ℚ → ℚ → ℚ) (st : ReactionState) (inputs : List (qmi8658a_data_t × Nat)),
      |st.accumulated_angle| ≤ REACTION_GYRO_MAX_CORRECTION →
      |(run_imu powf st inputs).1.accumulated_angle| ≤ REACTION_GYRO_MAX_CORRECTION) ∧
    (∀ (powf : ℚ → ℚ → ℚ) (st : ReactionState) (data : qmi8658a_data_t) (now : Nat),
      st.gyro_stabilize_enabled = true →
      REACTION_GYRO_UPDATE_INTERVAL_MS ≤ now - st.last_stabilize_time →
      |(apply_gyro_stabilization powf st data now).1.accumulated_angle| ≤
        REACTION_GYRO_MAX_CORRECTION ∧
      ∃ speed, (apply_gyro_stabilization powf st data now).2 =
        (dog_servo_move_all
          (DOG_STANCE_FRONT + (apply_gyro_stabilization powf st data now).1.accumulated_angle)
          (DOG_STANCE_FRONT + (apply_gyro_stabilization powf st data now).1.accumulated_angle)
          (DOG_STANCE_BACK + (apply_gyro_stabilization powf st data now).1.accumulated_angle)
          (DOG_STANCE_BACK + (apply_gyro_stabilization powf st data now).1.accumulated_angle)
          speed).map .servo) := by
  constructor
  · intro powf st inputs h
    exact run_imu_accum_bounded inputs powf st h
  · intro powf st data now hen hrate
    have hrate' : ¬(now - st.last_stabilize_time < REACTION_GYRO_UPDATE_INTERVAL_MS) :=
      not_lt.mpr hrate
    constructor
    · simp only [apply_gyro_stabilization, hen, Bool.not_true, Bool.false_eq_true,
        if_false, if_neg hrate']
      exact clamp_abs_le _ _ max_correction_nonneg
    · simp only [apply_gyro_stabilization, hen, Bool.not_true, Bool.false_eq_true,
        if_false, if_neg hrate']
      exact ⟨_, rfl⟩

/-- Witness for `accumulated_correction_always_bounded`: the invariant
over one extreme-gyro sample from the enabled test state, and the
firing-update clause at that same input (`powf` instantiated with a
constant function standing in for the C library power). -/
theorem accumulated_correction_always_bounded_witness :
    |(run_imu (fun a _ => a) enabledReactionState [(⟨0, 100000⟩, 50)]).1.accumulated_angle| ≤
      REACTION_GYRO_MAX_CORRECTION ∧
    (|(apply_gyro_stabilization (fun a _ => a) enabledReactionState ⟨0, 100000⟩ 50).1.accumulated_angle| ≤
      REACTION_GYRO_MAX_CORRECTION ∧
     ∃ speed, (apply_gyro_stabilization (fun a _ => a) enabledReactionState ⟨0, 100000⟩ 50).2 =
       (dog_servo_move_all
         (DOG_STANCE_FRONT + (apply_gyro_stabilization (fun a _ => a) enabledReactionState ⟨0, 100000⟩ 50).1.accumulated_angle)
         (DOG_STANCE_FRONT + (apply_gyro_stabilization (fun a _ => a) enabledReactionState ⟨0, 100000⟩ 50).1.accumulated_angle)
         (DOG_STANCE_BACK + (apply_gyro_stabilization (fun a _ => a) enabledReactionState ⟨0, 100000⟩ 50).1.accumulated_angle)
         (DOG_STANCE_BACK + (apply_gyro_stabilization (fun a _ => a) enabledReactionState ⟨0, 100000⟩ 50).1.accumulated_angle)
         speed).map .servo) :=
  ⟨accumulated_correction_always_bounded.1 (fun a _ => a) enabledReactionState
     [(⟨0, 100000⟩, 50)]
     (by norm_num [enabledReactionState, REACTION_GYRO_MAX_CORRECTION]),
   accumulated_correction_always_bounded.2 (fun a _ => a) enabledReactionState
     ⟨0, 100000⟩ 50 rfl (by norm_num [enabledReactionState, REACTION_GYRO_UPDATE_INTERVAL_MS])⟩

/-- C7: push detection is boundary-inclusive.  With a prior sample
recorded and the cooldown expired, a sample whose delta from the
previous `accel_x` is exactly `REACTION_DELTA_THRESHOLD` and whose
`accel_x` is exactly `REACTION_MIN_ACCEL` fires the forward-push
reaction (`walk_forward_play(3)`) and records the trigger time — the
detection comparisons are `≥`, not `>`. -/
theorem push_boundary_inclusive (powf : ℚ → ℚ → ℚ) (st : ReactionState)
    (data : qmi8658a_data_t) (now : Nat)
    (hprev : st.has_prev_reading = true)
    (hcool : REACTION_COOLDOWN_MS ≤ now - st.last_reaction_time)
    (hdelta : data.accel_x - st.prev_accel_x = REACTION_DELTA_THRESHOLD)
    (haccel : data.accel_x = REACTION_MIN_ACCEL) :
    (reaction_process_imu powf st data now).2 =
      (apply_gyro_stabilization powf st data now).2 ++ [.walk_forward 3] ∧
    (reaction_process_imu powf st data now).1.last_reaction_time = now := by
  obtain ⟨hp, hpx, hlr⟩ := apply_gyro_push_fields powf st data now
  simp only [reaction_process_imu, hp, hprev, hpx, hlr, Bool.not_true,
    Bool.false_eq_true, if_false, if_neg (not_lt.mpr hcool)]
  split
  · exact ⟨rfl, rfl⟩
  · rename_i hcond
    exact absurd ⟨ge_of_eq hdelta, ge_of_eq haccel⟩ hcond

/-- A reaction state seeded with a previous sample of −47 m/s²,
stabilization disabled, no recent trigger. -/
def pushTestState : ReactionState := ⟨0, -47, true, false, 0, 0, 0, 0⟩

/-- Witness for `push_boundary_inclusive`: from previous sample −47, a
sample of exactly 3 m/s² (delta exactly 50) fires the forward
reaction. -/
theorem push_boundary_inclusive_witness :
    (reaction_process_imu (fun a _ => a) pushTestState ⟨3, 0⟩ 2000).2 =
      [.walk_forward 3] ∧
    (reaction_process_imu (fun a _ => a) pushTestState ⟨3, 0⟩ 2000).1.last_reaction_time
      = 2000 := by
  have h := push_boundary_inclusive (fun a _ => a) pushTestState ⟨3, 0⟩ 2000
    rfl
    (by norm_num [pushTestState, REACTION_COOLDOWN_MS])
    (by norm_num [pushTestState, REACTION_DELTA_THRESHOLD])
    (by norm_num [REACTION_MIN_ACCEL])
  refine ⟨?_, h.2⟩
  rw [h.1]
  rfl

/-- C10: on every push-detector tick the stored previous acceleration
ends up equal to the current sample's `accel_x` — whether the tick
seeded the first sample, hit the cooldown, fired a trigger, or fired
nothing — so each computed delta compares two consecutive samples
only. -/
theorem prev_sample_always_updated (powf : ℚ → ℚ → ℚ) (st : ReactionState)
    (data : qmi8658a_data_t) (now : Nat) :
    (reaction_process_imu powf st data now).1.prev_accel_x = data.accel_x ∧
    (reaction_process_imu powf st data now).1.has_prev_reading = true := by
  constructor
  · simp only [reaction_process_imu]
    split
    · rfl
    · split
      · rfl
      · split
        · rfl
        · split
          · rfl
          · rfl
  · simp only [reaction_process_imu]
    split
    · rfl
    · rename_i h
      have h' : (apply_gyro_stabilization powf st data now).1.has_prev_reading = true := by
        simpa using h
      split
      · exact h'
      · split
        · exact h'
        · split
          · exact h'
          · exact h'

end MicroPup
